import Mathlib

/-!
# Verification of the SMBIOS/DMI structure walker and decoders

A shallow embedding of `osquery/tables/system/posix/smbios_utils.cpp`.

Conventions of the embedding:
* A raw buffer, a structure span and a trailing string area are `List Nat`
  values, one `Nat` per byte.
* Machine reads that the source performs through raw pointer arithmetic are
  modelled with `List.get?`; a read that falls outside the byte region handed
  to the function (undefined behaviour in the source, which reads past the
  structure's declared span) is modelled as `Option.none`, and functions that
  may perform such a read return `Option`.
* An `osquery` `Row` (a string-keyed map of string values built by repeated
  `r[key] = value` assignments) is modelled as an association list onto which
  each assignment prepends its pair; looking a key up (`rfind`) returns the
  most recent assignment.  The keys written by the decoder are pairwise
  distinct, so this agrees with the `std::map` semantics of the source.
* The `INTEGER` wrapper of osquery renders a number in decimal (`toString`);
  `std::map<uint8_t, std::string>` lookup tables are association lists sorted
  by key, as the source literals are written.
-/

/-- Whitespace recognised by `boost::algorithm::trim_right` under the classic
locale: space and the control characters 0x09–0x0D. -/
def isSpaceByte (b : Nat) : Bool :=
  b = 0x20 || (0x09 ≤ b && b ≤ 0x0D)

/-- Drop trailing whitespace bytes (the effect of `boost::algorithm::trim_right`
on the byte string); leading whitespace is preserved. -/
def trimRightBytes (l : List Nat) : List Nat :=
  (l.reverse.dropWhile isSpaceByte).reverse

/-- Interpret a byte string as text (one `Char` per byte). -/
def bytesToString (l : List Nat) : String :=
  String.mk (l.map Char.ofNat)

/-- `std::string::pop_back` — remove the final character. -/
def strPopBack (s : String) : String :=
  String.mk s.data.dropLast

/-- `toHexStr` of the source: `"0x"` followed by the lowercase hexadecimal
digits of `num`, zero padded on the left to at least 4 digits
(`std::hex`, `std::setw(4)`, `std::setfill('0')`). -/
def toHexStr (num : Nat) : String :=
  let ds := Nat.toDigits 16 num
  "0x" ++ String.mk (List.replicate (4 - ds.length) '0' ++ ds)

/-- `dmiToWord`: the 16-bit little-endian value
`(address[offset + 1] << 8) | address[offset]`.  `none` when a byte lies
outside the span handed to the caller. -/
def dmiToWord (address : List Nat) (offset : Nat) : Option Nat :=
  match address.get? offset, address.get? (offset + 1) with
  | some lo, some hi => some ((hi <<< 8) ||| lo)
  | _, _ => none

/-- `dmiToDWord`: the 32-bit little-endian value at `offset`. -/
def dmiToDWord (address : List Nat) (offset : Nat) : Option Nat :=
  match address.get? offset, address.get? (offset + 1),
        address.get? (offset + 2), address.get? (offset + 3) with
  | some b0, some b1, some b2, some b3 =>
    some ((b3 <<< 24) ||| (b2 <<< 16) ||| (b1 <<< 8) ||| b0)
  | _, _, _, _ => none

/-- `dmiWordToHexStr`: hex-format the word at `offset`. -/
def dmiWordToHexStr (address : List Nat) (offset : Nat) : Option String :=
  (dmiToWord address offset).map toHexStr

/-- `std::map<uint8_t, std::string>` lookup (`find` / `at`): the value stored
under key `k`, if any. -/
def mapFind (table : List (Nat × String)) (k : Nat) : Option String :=
  (table.find? (fun p => p.1 == k)).map (fun p => p.2)

/-- `kSMBIOSMemoryFormFactorTable` of the source. -/
def kSMBIOSMemoryFormFactorTable : List (Nat × String) :=
  [(0x01, "Other"), (0x02, "Unknown"), (0x03, "SIMM"), (0x04, "SIP"),
   (0x05, "Chip"), (0x06, "DIP"), (0x07, "ZIP"), (0x08, "Proprietary Card"),
   (0x09, "DIMM"), (0x0A, "TSOP"), (0x0B, "Row of chips"), (0x0C, "RIMM"),
   (0x0D, "SODIMM"), (0x0E, "SRIMM"), (0x0F, "FB-DIMM")]

/-- `kSMBIOSMemoryDetailsTable` of the source. -/
def kSMBIOSMemoryDetailsTable : List (Nat × String) :=
  [(0, "Reserved"), (1, "Other"), (2, "Unknown"), (3, "Fast-paged"),
   (4, "Static column"), (5, "Pseudo-static"), (6, "RAMBUS"),
   (7, "Synchronous"), (8, "CMOS"), (9, "EDO"), (10, "Window DRAM"),
   (11, "Cache DRAM"), (12, "Non-volatile"), (13, "Registered (Buffered)"),
   (14, "Unbuffered (Unregistered)"), (15, "LRDIMM")]

/-- `kSMBIOSMemoryTypeTable` of the source. -/
def kSMBIOSMemoryTypeTable : List (Nat × String) :=
  [(0x01, "Other"), (0x02, "Unknown"), (0x03, "DRAM"), (0x04, "EDRAM"),
   (0x05, "VRAM"), (0x06, "SRAM"), (0x07, "RAM"), (0x08, "ROM"),
   (0x09, "FLASH"), (0x0A, "EEPROM"), (0x0B, "FEPROM"), (0x0C, "EPROM"),
   (0x0D, "CDRAM"), (0x0E, "3DRAM"), (0x0F, "SDRAM"), (0x10, "SGRAM"),
   (0x11, "RDRAM"), (0x12, "DDR"), (0x13, "DDR2"), (0x14, "DDR2 FB-DIMM"),
   (0x15, "RESERVED"), (0x16, "RESERVED"), (0x17, "RESERVED"),
   (0x18, "DDR3"), (0x19, "FBD2"), (0x1A, "DDR4"), (0x1B, "LPDDR"),
   (0x1C, "LPDDR2"), (0x1D, "LPDDR3"), (0x1E, "LPDDR4")]

/-- The inner `while (*bp != 0) bp++; bp++;` of `dmiString`: skip one
NUL-terminated string.  `none` when the area is exhausted before a NUL is
found, i.e. the source would scan past the span handed to it. -/
def skipOneString : List Nat → Option (List Nat)
  | [] => none
  | b :: rest => if b = 0 then some rest else skipOneString rest

/-- The outer `while (index > 1)` loop of `dmiString`: skip `n` strings. -/
def skipStrings : Nat → List Nat → Option (List Nat)
  | 0, l => some l
  | n + 1, l => (skipOneString l).bind (skipStrings n)

/-- `std::string str{bp}`: the bytes up to the next NUL.  `none` when the area
ends before a NUL, i.e. the source would read past the span. -/
def readCStr : List Nat → Option (List Nat)
  | [] => none
  | b :: rest => if b = 0 then some [] else (readCStr rest).map (fun l => b :: l)

/-- `dmiString` of the source.  `data` is the trailing string area of the
structure (the bytes from `address + hdr->length` to the end of the span),
`address` the structure span, `offset` the offset of the index byte.  Index 0
resolves to the empty string without touching `data`, otherwise `index - 1`
NUL terminators are skipped, the string there is read, and its trailing
whitespace is trimmed. -/
def dmiString (data : List Nat) (address : List Nat) (offset : Nat) :
    Option String :=
  match address.get? offset with
  | none => none
  | some index =>
    if index = 0 then some ""
    else
      match skipStrings (index - 1) data with
      | none => none
      | some bp =>
        match readCStr bp with
        | none => none
        | some s => some (bytesToString (trimRightBytes s))

/-- The `for (uint8_t i = 0; i < table.size(); i++)` loop of
`dmiBitFieldToStr`.  `rem` counts the remaining iterations (`table.size() - i`)
so the recursion is structural.  `table.at(i)` throws when key `i` is missing,
modelled by `none`. -/
def bitFieldLoop (bitField : Nat) (table : List (Nat × String)) :
    Nat → Nat → String → Option String
  | 0, _, acc => some acc
  | rem + 1, i, acc =>
    if (1 <<< i) &&& bitField ≠ 0 then
      match mapFind table i with
      | some lbl => bitFieldLoop bitField table rem (i + 1) (acc ++ lbl ++ " ")
      | none => none
    else bitFieldLoop bitField table rem (i + 1) acc

/-- `dmiBitFieldToStr` of the source: concatenate `table.at(i) + ' '` for every
set bit `i` below `table.size()`, then `pop_back` the trailing space of a
non-empty result. -/
def dmiBitFieldToStr (bitField : Nat) (table : List (Nat × String)) :
    Option String :=
  (bitFieldLoop bitField table table.length 0 "").map
    (fun result => if result = "" then result else strPopBack result)

/-- Join with a single separating space, no leading or trailing separator. -/
def joinSpace : List String → String
  | [] => ""
  | [s] => s
  | s :: rest => s ++ " " ++ joinSpace rest

/-- The Bit-Field Decoder as the spec words it (for comparison with
`dmiBitFieldToStr`): the labels whose bit is set in `mask` and which are
present in the table, in ascending bit-index order — the table is sorted by
key — joined by a single space with no trailing separator. -/
def specDecodeBits (mask : Nat) (table : List (Nat × String)) : String :=
  joinSpace ((table.filter (fun p => Nat.testBit mask p.1)).map (fun p => p.2))

/-- Modelled from the spec: `SMBStructHeader` is declared in
`smbios_utils.h`, which is not part of the sources; per §3 it is the leading
4 bytes of a structure — `type` (1 byte), `length` (1 byte), `handle`
(2 bytes, little-endian). -/
structure SMBStructHeader where
  type : Nat
  length : Nat
  handle : Nat
  deriving DecidableEq, Repr

/-- Modelled from the spec: `kSMBIOSTypeMemoryDevice` is declared in
`smbios_utils.h`; the Memory Device Decoder applies only to type 17. -/
def kSMBIOSTypeMemoryDevice : Nat := 17

/-- An osquery `Row`: string keys mapped to string values.  Assignments
prepend; `rfind` returns the most recent assignment for a key. -/
def Row : Type := List (String × String)

instance : DecidableEq Row := by
  unfold Row
  infer_instance

/-- Row lookup. -/
def rfind (r : Row) (key : String) : Option String :=
  match r with
  | [] => none
  | (k, v) :: rest => if key = k then some v else rfind rest key

/-- The raw fields `genSMBIOSMemoryDevices` extracts from a structure span,
bound in the order the source reads them.  (The dword at 0x1C is read by the
source only when the size word is 0x7FFF; it never reaches past the furthest
unconditional read at 0x27, so reading it unconditionally is equivalent.) -/
structure MemDevRaw where
  handleStr : String
  arrayHandleStr : String
  formFactor : Nat
  totalWidth : Nat
  dataWidth : Nat
  sizeWord : Nat
  dword1C : Nat
  setByte : Nat
  devLocator : String
  bankLocator : String
  memType : Nat
  detailsW : Nat
  detailsStr : String
  maxSpeed : Nat
  cfgSpeed : Nat
  manufacturer : String
  serialNumber : String
  assetTag : String
  partNumber : String
  minVoltage : Nat
  maxVoltage : Nat
  cfgVoltage : Nat
  deriving DecidableEq, Repr

/-- All reads `genSMBIOSMemoryDevices` performs on the structure span, in
source order.  `none` when a read would leave the span. -/
def readMemDevRaw (hdr : SMBStructHeader) (address : List Nat) :
    Option MemDevRaw :=
  match dmiWordToHexStr address 0x02 with
  | none => none
  | some handleStr =>
  match dmiWordToHexStr address 0x04 with
  | none => none
  | some arrayHandleStr =>
  match address.get? 0x0E with
  | none => none
  | some formFactor =>
  match dmiToWord address 0x08 with
  | none => none
  | some totalWidth =>
  match dmiToWord address 0x0A with
  | none => none
  | some dataWidth =>
  match dmiToWord address 0x0C with
  | none => none
  | some sizeWord =>
  match dmiToDWord address 0x1C with
  | none => none
  | some dword1C =>
  match address.get? 0x0F with
  | none => none
  | some setByte =>
  match dmiString (address.drop hdr.length) address 0x10 with
  | none => none
  | some devLocator =>
  match dmiString (address.drop hdr.length) address 0x11 with
  | none => none
  | some bankLocator =>
  match address.get? 0x12 with
  | none => none
  | some memType =>
  match dmiToWord address 0x13 with
  | none => none
  | some detailsW =>
  match dmiBitFieldToStr detailsW kSMBIOSMemoryDetailsTable with
  | none => none
  | some detailsStr =>
  match dmiToWord address 0x15 with
  | none => none
  | some maxSpeed =>
  match dmiToWord address 0x20 with
  | none => none
  | some cfgSpeed =>
  match dmiString (address.drop hdr.length) address 0x17 with
  | none => none
  | some manufacturer =>
  match dmiString (address.drop hdr.length) address 0x18 with
  | none => none
  | some serialNumber =>
  match dmiString (address.drop hdr.length) address 0x19 with
  | none => none
  | some assetTag =>
  match dmiString (address.drop hdr.length) address 0x1A with
  | none => none
  | some partNumber =>
  match dmiToWord address 0x22 with
  | none => none
  | some minVoltage =>
  match dmiToWord address 0x24 with
  | none => none
  | some maxVoltage =>
  match dmiToWord address 0x26 with
  | none => none
  | some cfgVoltage =>
  some { handleStr, arrayHandleStr, formFactor, totalWidth, dataWidth,
         sizeWord, dword1C, setByte, devLocator, bankLocator, memType,
         detailsW, detailsStr, maxSpeed, cfgSpeed, manufacturer,
         serialNumber, assetTag, partNumber, minVoltage, maxVoltage,
         cfgVoltage }

/-- A conditional row assignment (`if (...) { r[k] = v; }`). -/
def rowIf (c : Prop) [Decidable c] (k v : String) (r : Row) : Row :=
  if c then (k, v) :: r else r

/-- A row assignment performed only when a table lookup hits
(`if (it != table.end()) { r[k] = it->second; }`). -/
def rowOptIns (k : String) (o : Option String) (r : Row) : Row :=
  match o with
  | some s => (k, s) :: r
  | none => r

/-- The row assignments of `genSMBIOSMemoryDevices`, in source order, with the
source's sentinel conditionals. -/
def buildRow (raw : MemDevRaw) : Row :=
  let r : Row := []
  let r := ("handle", raw.handleStr) :: r
  let r := ("array_handle", raw.arrayHandleStr) :: r
  let r := rowOptIns "form_factor"
    (mapFind kSMBIOSMemoryFormFactorTable raw.formFactor) r
  let r := rowIf (raw.totalWidth ≠ 0xFFFF) "total_width"
    (toString raw.totalWidth) r
  let r := rowIf (raw.dataWidth ≠ 0xFFFF) "data_width"
    (toString raw.dataWidth) r
  let r := rowIf (raw.sizeWord ≠ 0xFFFF) "size"
    (if raw.sizeWord ≠ 0x7FFF then toString raw.sizeWord
     else toString raw.dword1C) r
  let r := rowIf (raw.setByte ≠ 0xFF) "set" (toString raw.setByte) r
  let r := ("device_locator", raw.devLocator) :: r
  let r := ("bank_locator", raw.bankLocator) :: r
  let r := rowOptIns "memory_type"
    (mapFind kSMBIOSMemoryTypeTable raw.memType) r
  let r := ("memory_type_details", raw.detailsStr) :: r
  let r := rowIf (raw.maxSpeed ≠ 0 ∧ raw.maxSpeed ≠ 0xFFFF) "max_speed"
    (toString raw.maxSpeed) r
  let r := rowIf (raw.cfgSpeed ≠ 0 ∧ raw.cfgSpeed ≠ 0xFFFF)
    "configured_clock_speed" (toString raw.cfgSpeed) r
  let r := ("manufacturer", raw.manufacturer) :: r
  let r := ("serial_number", raw.serialNumber) :: r
  let r := ("asset_tag", raw.assetTag) :: r
  let r := ("part_number", raw.partNumber) :: r
  let r := rowIf (raw.minVoltage ≠ 0) "min_voltage"
    (toString raw.minVoltage) r
  let r := rowIf (raw.maxVoltage ≠ 0) "max_voltage"
    (toString raw.maxVoltage) r
  let r := rowIf (raw.cfgVoltage ≠ 0) "configured_voltage"
    (toString raw.cfgVoltage) r
  r

/-- `genSMBIOSMemoryDevices` of the source.  `address` holds the bytes of the
structure's span, `size` the total span length as reported by the walker.  The
result models what the call appends to `results`: `[]` when the guard rejects
the structure, one row otherwise; `none` when a read leaves the span. -/
def genSMBIOSMemoryDevices (hdr : SMBStructHeader) (address : List Nat)
    (size : Nat) : Option (List Row) :=
  if hdr.type ≠ kSMBIOSTypeMemoryDevice ∨ size < 0x12 then
    some []
  else
    (readMemDevRaw hdr address).map (fun raw => [buildRow raw])

/-- Parse the `SMBStructHeader` at offset `c` of the buffer (only meaningful
when `c + 4 ≤ buf.length`, which the walker checks first). -/
def parseHeader (buf : List Nat) (c : Nat) : SMBStructHeader :=
  { type := buf.getD c 0
    length := buf.getD (c + 1) 0
    handle := (buf.getD (c + 3) 0 <<< 8) ||| buf.getD (c + 2) 0 }

/-- The trailing-area scan of `SMBIOSParser::tables`: starting at `p`, advance
one byte at a time while at least `sizeof(SMBStructHeader)` = 4 bytes remain,
stopping 2 bytes past a pair of consecutive NUL bytes.  `fuel` bounds the
iteration; `buf.length + 1` always suffices since `p` grows by 1 each step. -/
def scanNulGo (buf : List Nat) : Nat → Nat → Nat
  | 0, p => p
  | fuel + 1, p =>
    if p + 4 ≤ buf.length then
      if buf.getD p 0 = 0 ∧ buf.getD (p + 1) 0 = 0 then p + 2
      else scanNulGo buf fuel (p + 1)
    else p

/-- End of the structure starting whose formatted area ends at `p`. -/
def scanNul (buf : List Nat) (p : Nat) : Nat :=
  scanNulGo buf (buf.length + 1) p

/-- One emitted tuple: (scan index, header, structure start, total span
length), as handed to the predicate by `SMBIOSParser::tables`. -/
def SMBTuple : Type := Nat × SMBStructHeader × Nat × Nat

instance : DecidableEq SMBTuple := by
  unfold SMBTuple
  infer_instance

/-- The structure walk of `SMBIOSParser::tables`, from cursor `c` with next
scan index `index`.  `fuel` bounds the iteration; the cursor strictly
increases each step, so `buf.length + 1` always suffices. -/
def tablesGo (buf : List Nat) : Nat → Nat → Nat → List SMBTuple
  | 0, _, _ => []
  | fuel + 1, c, index =>
    if c + 4 ≤ buf.length then
      let header := parseHeader buf c
      if c + header.length > buf.length then []
      else if header.length = 0 ∧ header.handle = 0 then []
      else
        let next := scanNul buf (c + header.length)
        (index, header, c, next - c) :: tablesGo buf fuel next (index + 1)
    else []

/-- `SMBIOSParser::tables` of the source: the finite sequence of
(index, header, start, span length) tuples emitted over the buffer. -/
def tables (buf : List Nat) : List SMBTuple :=
  tablesGo buf (buf.length + 1) 0 0

/-- Encode a list of NUL-free strings as a trailing string area: each string
followed by its NUL terminator, then the final NUL that forms the
double-NUL end marker. -/
def encodeStrings (ss : List (List Nat)) : List Nat :=
  (ss.map (fun s => s ++ [0])).flatten ++ [0]

/-! ## Row lookup lemmas -/

theorem rfind_nil (key : String) : rfind [] key = none := rfl

theorem rfind_cons_self (k v : String) (r : Row) :
    rfind ((k, v) :: r) k = some v := by
  simp [rfind]

theorem rfind_cons_ne {key k : String} (h : key ≠ k) (v : String) (r : Row) :
    rfind ((k, v) :: r) key = rfind r key := by
  simp [rfind, h]

theorem rfind_rowIf_ne (c : Prop) [Decidable c] {key k : String}
    (h : key ≠ k) (v : String) (r : Row) :
    rfind (rowIf c k v r) key = rfind r key := by
  by_cases hc : c
  · simp [rowIf, hc, rfind, h]
  · simp [rowIf, hc]

theorem rfind_rowIf_self (c : Prop) [Decidable c] (k v : String) (r : Row) :
    rfind (rowIf c k v r) k = if c then some v else rfind r k := by
  by_cases hc : c
  · simp [rowIf, hc, rfind]
  · simp [rowIf, hc]

theorem rfind_rowOptIns_ne (o : Option String) {key k : String}
    (h : key ≠ k) (r : Row) :
    rfind (rowOptIns k o r) key = rfind r key := by
  cases o with
  | none => rfl
  | some s => simp [rowOptIns, rfind, h]

/-! ## Field lookups on the row built by the Memory Device Decoder -/

theorem rfind_buildRow_device_locator (raw : MemDevRaw) :
    rfind (buildRow raw) "device_locator" = some raw.devLocator := by
  simp [buildRow, rfind_rowIf_self, rfind_rowIf_ne,
    rfind_rowOptIns_ne, rfind_cons_ne, rfind_cons_self, rfind_nil]

theorem rfind_buildRow_bank_locator (raw : MemDevRaw) :
    rfind (buildRow raw) "bank_locator" = some raw.bankLocator := by
  simp [buildRow, rfind_rowIf_self, rfind_rowIf_ne,
    rfind_rowOptIns_ne, rfind_cons_ne, rfind_cons_self, rfind_nil]

theorem rfind_buildRow_manufacturer (raw : MemDevRaw) :
    rfind (buildRow raw) "manufacturer" = some raw.manufacturer := by
  simp [buildRow, rfind_rowIf_self, rfind_rowIf_ne,
    rfind_rowOptIns_ne, rfind_cons_ne, rfind_cons_self, rfind_nil]

theorem rfind_buildRow_serial_number (raw : MemDevRaw) :
    rfind (buildRow raw) "serial_number" = some raw.serialNumber := by
  simp [buildRow, rfind_rowIf_self, rfind_rowIf_ne,
    rfind_rowOptIns_ne, rfind_cons_ne, rfind_cons_self, rfind_nil]

theorem rfind_buildRow_asset_tag (raw : MemDevRaw) :
    rfind (buildRow raw) "asset_tag" = some raw.assetTag := by
  simp [buildRow, rfind_rowIf_self, rfind_rowIf_ne,
    rfind_rowOptIns_ne, rfind_cons_ne, rfind_cons_self, rfind_nil]

theorem rfind_buildRow_part_number (raw : MemDevRaw) :
    rfind (buildRow raw) "part_number" = some raw.partNumber := by
  simp [buildRow, rfind_rowIf_self, rfind_rowIf_ne,
    rfind_rowOptIns_ne, rfind_cons_ne, rfind_cons_self, rfind_nil]

theorem rfind_buildRow_details (raw : MemDevRaw) :
    rfind (buildRow raw) "memory_type_details" = some raw.detailsStr := by
  simp [buildRow, rfind_rowIf_self, rfind_rowIf_ne,
    rfind_rowOptIns_ne, rfind_cons_ne, rfind_cons_self, rfind_nil]

theorem rfind_buildRow_size (raw : MemDevRaw) :
    rfind (buildRow raw) "size" =
      if raw.sizeWord ≠ 0xFFFF then
        some (if raw.sizeWord ≠ 0x7FFF then toString raw.sizeWord
              else toString raw.dword1C)
      else none := by
  simp [buildRow, rfind_rowIf_self, rfind_rowIf_ne,
    rfind_rowOptIns_ne, rfind_cons_ne, rfind_cons_self, rfind_nil]

theorem rfind_buildRow_total_width (raw : MemDevRaw) :
    rfind (buildRow raw) "total_width" =
      if raw.totalWidth ≠ 0xFFFF then some (toString raw.totalWidth)
      else none := by
  simp [buildRow, rfind_rowIf_self, rfind_rowIf_ne,
    rfind_rowOptIns_ne, rfind_cons_ne, rfind_cons_self, rfind_nil]

theorem rfind_buildRow_data_width (raw : MemDevRaw) :
    rfind (buildRow raw) "data_width" =
      if raw.dataWidth ≠ 0xFFFF then some (toString raw.dataWidth)
      else none := by
  simp [buildRow, rfind_rowIf_self, rfind_rowIf_ne,
    rfind_rowOptIns_ne, rfind_cons_ne, rfind_cons_self, rfind_nil]

theorem rfind_buildRow_set (raw : MemDevRaw) :
    rfind (buildRow raw) "set" =
      if raw.setByte ≠ 0xFF then some (toString raw.setByte) else none := by
  simp [buildRow, rfind_rowIf_self, rfind_rowIf_ne,
    rfind_rowOptIns_ne, rfind_cons_ne, rfind_cons_self, rfind_nil]

theorem rfind_buildRow_max_speed (raw : MemDevRaw) :
    rfind (buildRow raw) "max_speed" =
      if raw.maxSpeed ≠ 0 ∧ raw.maxSpeed ≠ 0xFFFF then
        some (toString raw.maxSpeed)
      else none := by
  simp [buildRow, rfind_rowIf_self, rfind_rowIf_ne,
    rfind_rowOptIns_ne, rfind_cons_ne, rfind_cons_self, rfind_nil]

theorem rfind_buildRow_cfg_speed (raw : MemDevRaw) :
    rfind (buildRow raw) "configured_clock_speed" =
      if raw.cfgSpeed ≠ 0 ∧ raw.cfgSpeed ≠ 0xFFFF then
        some (toString raw.cfgSpeed)
      else none := by
  simp [buildRow, rfind_rowIf_self, rfind_rowIf_ne,
    rfind_rowOptIns_ne, rfind_cons_ne, rfind_cons_self, rfind_nil]

theorem rfind_buildRow_min_voltage (raw : MemDevRaw) :
    rfind (buildRow raw) "min_voltage" =
      if raw.minVoltage ≠ 0 then some (toString raw.minVoltage) else none := by
  simp [buildRow, rfind_rowIf_self, rfind_rowIf_ne,
    rfind_rowOptIns_ne, rfind_cons_ne, rfind_cons_self, rfind_nil]

theorem rfind_buildRow_max_voltage (raw : MemDevRaw) :
    rfind (buildRow raw) "max_voltage" =
      if raw.maxVoltage ≠ 0 then some (toString raw.maxVoltage) else none := by
  simp [buildRow, rfind_rowIf_self, rfind_rowIf_ne,
    rfind_rowOptIns_ne, rfind_cons_ne, rfind_cons_self, rfind_nil]

theorem rfind_buildRow_cfg_voltage (raw : MemDevRaw) :
    rfind (buildRow raw) "configured_voltage" =
      if raw.cfgVoltage ≠ 0 then some (toString raw.cfgVoltage) else none := by
  simp [buildRow, rfind_rowIf_self, rfind_rowIf_ne,
    rfind_rowOptIns_ne, rfind_cons_ne, rfind_cons_self, rfind_nil]

/-! ## Inversion of a successful Memory Device decode -/

theorem readMemDevRaw_eq {hdr : SMBStructHeader} {address : List Nat}
    {raw : MemDevRaw} (h : readMemDevRaw hdr address = some raw) :
    dmiWordToHexStr address 0x02 = some raw.handleStr ∧
    dmiWordToHexStr address 0x04 = some raw.arrayHandleStr ∧
    address.get? 0x0E = some raw.formFactor ∧
    dmiToWord address 0x08 = some raw.totalWidth ∧
    dmiToWord address 0x0A = some raw.dataWidth ∧
    dmiToWord address 0x0C = some raw.sizeWord ∧
    dmiToDWord address 0x1C = some raw.dword1C ∧
    address.get? 0x0F = some raw.setByte ∧
    dmiString (address.drop hdr.length) address 0x10 = some raw.devLocator ∧
    dmiString (address.drop hdr.length) address 0x11 = some raw.bankLocator ∧
    address.get? 0x12 = some raw.memType ∧
    dmiToWord address 0x13 = some raw.detailsW ∧
    dmiBitFieldToStr raw.detailsW kSMBIOSMemoryDetailsTable
      = some raw.detailsStr ∧
    dmiToWord address 0x15 = some raw.maxSpeed ∧
    dmiToWord address 0x20 = some raw.cfgSpeed ∧
    dmiString (address.drop hdr.length) address 0x17 = some raw.manufacturer ∧
    dmiString (address.drop hdr.length) address 0x18 = some raw.serialNumber ∧
    dmiString (address.drop hdr.length) address 0x19 = some raw.assetTag ∧
    dmiString (address.drop hdr.length) address 0x1A = some raw.partNumber ∧
    dmiToWord address 0x22 = some raw.minVoltage ∧
    dmiToWord address 0x24 = some raw.maxVoltage ∧
    dmiToWord address 0x26 = some raw.cfgVoltage := by
  unfold readMemDevRaw at h
  repeat' split at h
  any_goals exact Option.noConfusion h
  injection h with h'
  subst h'
  refine ⟨?_, ?_, ?_, ?_, ?_, ?_, ?_, ?_, ?_, ?_, ?_, ?_, ?_, ?_, ?_, ?_,
    ?_, ?_, ?_, ?_, ?_, ?_⟩ <;> assumption

theorem genMemDev_inv {hdr : SMBStructHeader} {address : List Nat}
    {size : Nat} {r : Row} {l : List Row}
    (h : genSMBIOSMemoryDevices hdr address size = some (r :: l)) :
    ∃ raw, readMemDevRaw hdr address = some raw ∧ r = buildRow raw ∧
      l = [] := by
  unfold genSMBIOSMemoryDevices at h
  split at h
  · simp at h
  · cases hr : readMemDevRaw hdr address with
    | none => rw [hr] at h; exact Option.noConfusion h
    | some raw =>
      rw [hr] at h
      simp only [Option.map_some'] at h
      injection h with h'
      injection h' with h1 h2
      exact ⟨raw, rfl, h1.symm, h2.symm⟩

theorem dmiString_index_zero {data address : List Nat} {offset : Nat}
    (h : address.get? offset = some 0) :
    dmiString data address offset = some "" := by
  unfold dmiString
  rw [h]
  rfl

/-! ## Claims C3, C4, C5 — Memory Device field decoding -/

/-- Claim C3 (amended): in every decoded Memory Device record the
string-indexed fields and `memory_type_details` are always present; an index
byte of 0, or an empty bit-field decode, yields the field bound to the empty
string rather than an absent field. -/
theorem c3_amended {hdr : SMBStructHeader} {address : List Nat} {size : Nat}
    {r : Row} {l : List Row}
    (hdec : genSMBIOSMemoryDevices hdr address size = some (r :: l)) :
    (address.get? 0x10 = some 0 → rfind r "device_locator" = some "") ∧
    (address.get? 0x11 = some 0 → rfind r "bank_locator" = some "") ∧
    (address.get? 0x17 = some 0 → rfind r "manufacturer" = some "") ∧
    (address.get? 0x18 = some 0 → rfind r "serial_number" = some "") ∧
    (address.get? 0x19 = some 0 → rfind r "asset_tag" = some "") ∧
    (address.get? 0x1A = some 0 → rfind r "part_number" = some "") ∧
    (∀ w, dmiToWord address 0x13 = some w →
      dmiBitFieldToStr w kSMBIOSMemoryDetailsTable = some "" →
      rfind r "memory_type_details" = some "") := by
  obtain ⟨raw, hraw, rfl, -⟩ := genMemDev_inv hdec
  obtain ⟨h02, h04, h0E, h08, h0A, h0C, h1C, h0F, h10, h11, h12, h13, hdet,
    h15, h20, h17, h18, h19, h1A, h22, h24, h26⟩ := readMemDevRaw_eq hraw
  refine ⟨?_, ?_, ?_, ?_, ?_, ?_, ?_⟩
  · intro hz
    rw [dmiString_index_zero hz] at h10
    injection h10 with hv
    rw [rfind_buildRow_device_locator, ← hv]
  · intro hz
    rw [dmiString_index_zero hz] at h11
    injection h11 with hv
    rw [rfind_buildRow_bank_locator, ← hv]
  · intro hz
    rw [dmiString_index_zero hz] at h17
    injection h17 with hv
    rw [rfind_buildRow_manufacturer, ← hv]
  · intro hz
    rw [dmiString_index_zero hz] at h18
    injection h18 with hv
    rw [rfind_buildRow_serial_number, ← hv]
  · intro hz
    rw [dmiString_index_zero hz] at h19
    injection h19 with hv
    rw [rfind_buildRow_asset_tag, ← hv]
  · intro hz
    rw [dmiString_index_zero hz] at h1A
    injection h1A with hv
    rw [rfind_buildRow_part_number, ← hv]
  · intro w hw hempty
    rw [h13] at hw
    injection hw with hw'
    rw [← hw'] at hempty
    rw [hdet] at hempty
    injection hempty with he
    rw [rfind_buildRow_details, he]

/-- Claim C4: for every type-17 structure the Memory Device Decoder accepts,
the decoded `size` field follows the extended-size rule: word 0x7FFF at offset
0x0C means the dword at 0x1C, word 0xFFFF means the field is absent, and any
other word is the size itself. -/
theorem c4_size_rule {hdr : SMBStructHeader} {address : List Nat} {size : Nat}
    {r : Row} {l : List Row} {w d : Nat}
    (hdec : genSMBIOSMemoryDevices hdr address size = some (r :: l))
    (hw : dmiToWord address 0x0C = some w)
    (hd : dmiToDWord address 0x1C = some d) :
    (w = 0x7FFF → rfind r "size" = some (toString d)) ∧
    (w = 0xFFFF → rfind r "size" = none) ∧
    (w ≠ 0x7FFF → w ≠ 0xFFFF → rfind r "size" = some (toString w)) := by
  obtain ⟨raw, hraw, rfl, -⟩ := genMemDev_inv hdec
  obtain ⟨-, -, -, -, -, h0C, h1C, -, -, -, -, -, -, -, -, -, -, -, -, -, -,
    -⟩ := readMemDevRaw_eq hraw
  rw [h0C] at hw
  injection hw with hw'
  subst hw'
  rw [h1C] at hd
  injection hd with hd'
  subst hd'
  rw [rfind_buildRow_size]
  refine ⟨?_, ?_, ?_⟩
  · intro h7
    simp [h7]
  · intro hF
    simp [hF]
  · intro h7 hF
    simp [h7, hF]

/-- Claim C5: every sentinel input of the Memory Device Decoder yields an
absent field, never a literal zero: width words 0xFFFF, set byte 0xFF, speed
words 0x0000/0xFFFF and voltage words 0x0000 all leave their field out of the
record. -/
theorem c5_sentinels {hdr : SMBStructHeader} {address : List Nat} {size : Nat}
    {r : Row} {l : List Row}
    (hdec : genSMBIOSMemoryDevices hdr address size = some (r :: l)) :
    (dmiToWord address 0x08 = some 0xFFFF → rfind r "total_width" = none) ∧
    (dmiToWord address 0x0A = some 0xFFFF → rfind r "data_width" = none) ∧
    (address.get? 0x0F = some 0xFF → rfind r "set" = none) ∧
    (∀ v, dmiToWord address 0x15 = some v → v = 0 ∨ v = 0xFFFF →
      rfind r "max_speed" = none) ∧
    (∀ v, dmiToWord address 0x20 = some v → v = 0 ∨ v = 0xFFFF →
      rfind r "configured_clock_speed" = none) ∧
    (dmiToWord address 0x22 = some 0 → rfind r "min_voltage" = none) ∧
    (dmiToWord address 0x24 = some 0 → rfind r "max_voltage" = none) ∧
    (dmiToWord address 0x26 = some 0 → rfind r "configured_voltage" = none) := by
  obtain ⟨raw, hraw, rfl, -⟩ := genMemDev_inv hdec
  obtain ⟨h02, h04, h0E, h08, h0A, h0C, h1C, h0F, h10, h11, h12, h13, hdet,
    h15, h20, h17, h18, h19, h1A, h22, h24, h26⟩ := readMemDevRaw_eq hraw
  refine ⟨?_, ?_, ?_, ?_, ?_, ?_, ?_, ?_⟩
  · intro h
    rw [h08] at h
    injection h with h'
    rw [rfind_buildRow_total_width]
    simp [h']
  · intro h
    rw [h0A] at h
    injection h with h'
    rw [rfind_buildRow_data_width]
    simp [h']
  · intro h
    rw [h0F] at h
    injection h with h'
    rw [rfind_buildRow_set]
    simp [h']
  · intro v hv hor
    rw [h15] at hv
    injection hv with h'
    subst h'
    rw [rfind_buildRow_max_speed]
    rcases hor with h | h <;> simp [h]
  · intro v hv hor
    rw [h20] at hv
    injection hv with h'
    subst h'
    rw [rfind_buildRow_cfg_speed]
    rcases hor with h | h <;> simp [h]
  · intro h
    rw [h22] at h
    injection h with h'
    rw [rfind_buildRow_min_voltage]
    simp [h']
  · intro h
    rw [h24] at h
    injection h with h'
    rw [rfind_buildRow_max_voltage]
    simp [h']
  · intro h
    rw [h26] at h
    injection h with h'
    rw [rfind_buildRow_cfg_voltage]
    simp [h']

/-! ## Concrete Memory Device inputs used by witnesses and counterexamples -/

def memDevZeroSpan : List Nat := List.replicate 42 0

def memDevZeroRow : Row :=
  [("part_number", ""), ("asset_tag", ""), ("serial_number", ""),
   ("manufacturer", ""), ("memory_type_details", ""), ("bank_locator", ""),
   ("device_locator", ""), ("set", "0"), ("size", "0"), ("data_width", "0"),
   ("total_width", "0"), ("array_handle", "0x0000"), ("handle", "0x0000")]

def extSizeSpan : List Nat :=
  [0, 0, 0, 0, 0, 0, 0, 0, 0, 0, 0, 0, 0xFF, 0x7F, 0, 0,
   0, 0, 0, 0, 0, 0, 0, 0, 0, 0, 0, 0, 2, 0, 0, 0,
   0, 0, 0, 0, 0, 0, 0, 0, 0, 0]

def extSizeRow : Row :=
  [("part_number", ""), ("asset_tag", ""), ("serial_number", ""),
   ("manufacturer", ""), ("memory_type_details", ""), ("bank_locator", ""),
   ("device_locator", ""), ("set", "0"), ("size", "2"), ("data_width", "0"),
   ("total_width", "0"), ("array_handle", "0x0000"), ("handle", "0x0000")]

def sentinelSpan : List Nat :=
  [0, 0, 0, 0, 0, 0, 0, 0, 0xFF, 0xFF, 0xFF, 0xFF, 0xFF, 0xFF, 0, 0xFF,
   0, 0, 0, 0, 0, 0, 0, 0, 0, 0, 0, 0, 0, 0, 0, 0,
   0, 0, 0, 0, 0, 0, 0, 0, 0, 0]

def sentinelRow : Row :=
  [("part_number", ""), ("asset_tag", ""), ("serial_number", ""),
   ("manufacturer", ""), ("memory_type_details", ""), ("bank_locator", ""),
   ("device_locator", ""), ("array_handle", "0x0000"), ("handle", "0x0000")]

/-- Claim C1 (code defect): when the string index (here 3, at offset 0x10)
points past the strings actually present in the trailing area (here empty,
`[0, 0]`), `dmiString` does not fail with a scoped condition — it walks past
the area's terminating double NUL and reads beyond the structure's declared
span, modelled as `none`. -/
theorem c1_dmiString_reads_past_span :
    dmiString [0, 0] (List.replicate 16 0 ++ [3]) 0x10 = none := by
  decide

/-- Claim C3 (counterexample): a type-17 structure whose string index bytes
are 0 and whose type-detail word decodes to the empty string produces a row in
which `device_locator` and `memory_type_details` are bound to the empty
string — the fields are present, contradicting the claim that they are
absent. -/
theorem c3_counterexample :
    genSMBIOSMemoryDevices ⟨17, 0x28, 0⟩ memDevZeroSpan 42
        = some [memDevZeroRow] ∧
    rfind memDevZeroRow "device_locator" = some "" ∧
    rfind memDevZeroRow "memory_type_details" = some "" := by
  refine ⟨by decide, by decide, by decide⟩

/-- Claim C3 (witness): the amended claim at the all-zero structure. -/
theorem c3_witness :
    genSMBIOSMemoryDevices ⟨17, 0x28, 0⟩ memDevZeroSpan 42
        = some (memDevZeroRow :: []) ∧
    rfind memDevZeroRow "device_locator" = some "" ∧
    rfind memDevZeroRow "memory_type_details" = some "" := by
  have h : genSMBIOSMemoryDevices ⟨17, 0x28, 0⟩ memDevZeroSpan 42
      = some (memDevZeroRow :: []) := by decide
  exact ⟨h, (c3_amended h).1 (by decide),
    (c3_amended h).2.2.2.2.2.2 0 (by decide) (by decide)⟩

/-- Claim C4 (witness): a size word of 0x7FFF makes the decoded size the dword
at offset 0x1C (here 2). -/
theorem c4_witness :
    genSMBIOSMemoryDevices ⟨17, 0x28, 0⟩ extSizeSpan 42
        = some (extSizeRow :: []) ∧
    dmiToWord extSizeSpan 0x0C = some 0x7FFF ∧
    dmiToDWord extSizeSpan 0x1C = some 2 ∧
    rfind extSizeRow "size" = some "2" := by
  have h : genSMBIOSMemoryDevices ⟨17, 0x28, 0⟩ extSizeSpan 42
      = some (extSizeRow :: []) := by decide
  exact ⟨h, by decide, by decide,
    (@c4_size_rule ⟨17, 0x28, 0⟩ extSizeSpan 42 extSizeRow [] 0x7FFF 2
      h (by decide) (by decide)).1 rfl⟩

/-- Claim C5 (witness): sentinel widths, set byte, speeds and voltages at a
concrete structure leave every corresponding field absent. -/
theorem c5_witness :
    genSMBIOSMemoryDevices ⟨17, 0x28, 0⟩ sentinelSpan 42
        = some (sentinelRow :: []) ∧
    rfind sentinelRow "total_width" = none ∧
    rfind sentinelRow "data_width" = none ∧
    rfind sentinelRow "set" = none ∧
    rfind sentinelRow "max_speed" = none ∧
    rfind sentinelRow "configured_clock_speed" = none ∧
    rfind sentinelRow "min_voltage" = none ∧
    rfind sentinelRow "max_voltage" = none ∧
    rfind sentinelRow "configured_voltage" = none := by
  have h : genSMBIOSMemoryDevices ⟨17, 0x28, 0⟩ sentinelSpan 42
      = some (sentinelRow :: []) := by decide
  exact ⟨h, (c5_sentinels h).1 (by decide), (c5_sentinels h).2.1 (by decide),
    (c5_sentinels h).2.2.1 (by decide),
    (c5_sentinels h).2.2.2.1 0 (by decide) (Or.inl rfl),
    (c5_sentinels h).2.2.2.2.1 0 (by decide) (Or.inl rfl),
    (c5_sentinels h).2.2.2.2.2.1 (by decide),
    (c5_sentinels h).2.2.2.2.2.2.1 (by decide),
    (c5_sentinels h).2.2.2.2.2.2.2 (by decide)⟩

/-- Claim C7 (counterexample): on the table `[(3, "x")]` — label "x" present
at bit index 3 — and mask 8 (bit 3 set), the claim requires the output "x",
but `dmiBitFieldToStr` iterates only over indices below the table's size (1)
and returns the empty string. -/
theorem c7_counterexample :
    dmiBitFieldToStr 8 [(3, "x")] = some "" ∧
    specDecodeBits 8 [(3, "x")] = "x" ∧
    dmiBitFieldToStr 8 [(3, "x")] ≠ some (specDecodeBits 8 [(3, "x")]) := by
  refine ⟨by decide, by decide, by decide⟩

/-! ## Claim C6 — the string table resolver on well-formed trailing areas -/

theorem encodeStrings_cons (s : List Nat) (ss : List (List Nat)) :
    encodeStrings (s :: ss) = s ++ 0 :: encodeStrings ss := by
  simp [encodeStrings]

theorem skipOneString_append {s : List Nat} (t : List Nat)
    (hs : ∀ b ∈ s, b ≠ 0) :
    skipOneString (s ++ 0 :: t) = some t := by
  induction s with
  | nil => simp [skipOneString]
  | cons b s ih =>
    have hb : b ≠ 0 := hs b (List.mem_cons_self b s)
    simp only [List.cons_append, skipOneString, if_neg hb]
    exact ih (fun x hx => hs x (List.mem_cons_of_mem b hx))

theorem readCStr_append {s : List Nat} (t : List Nat)
    (hs : ∀ b ∈ s, b ≠ 0) :
    readCStr (s ++ 0 :: t) = some s := by
  induction s with
  | nil => simp [readCStr]
  | cons b s ih =>
    have hb : b ≠ 0 := hs b (List.mem_cons_self b s)
    have ih2 := ih (fun x hx => hs x (List.mem_cons_of_mem b hx))
    simp [readCStr, hb, ih2]

theorem skipStrings_encode {m : Nat} {ss : List (List Nat)}
    (hm : m ≤ ss.length) (hss : ∀ s ∈ ss, ∀ b ∈ s, b ≠ 0) :
    skipStrings m (encodeStrings ss) = some (encodeStrings (ss.drop m)) := by
  induction m generalizing ss with
  | zero => simp [skipStrings]
  | succ m ih =>
    cases ss with
    | nil => exact absurd hm (by simp)
    | cons s tail =>
      rw [encodeStrings_cons, skipStrings,
        skipOneString_append _ (hss s (List.mem_cons_self s tail)),
        Option.some_bind, List.drop_succ_cons]
      exact ih (by simpa using hm)
        (fun x hx => hss x (List.mem_cons_of_mem s hx))

theorem dmiString_eq_of {data address : List Nat} {offset k : Nat}
    {bp s : List Nat}
    (hidx : address.get? offset = some k) (h1 : k ≠ 0)
    (hskip : skipStrings (k - 1) data = some bp)
    (hread : readCStr bp = some s) :
    dmiString data address offset =
      some (bytesToString (trimRightBytes s)) := by
  have hidx2 : address[offset]? = some k := by
    rw [← List.get?_eq_getElem?]
    exact hidx
  unfold dmiString
  simp [hidx2, h1, hskip, hread]

/-- Claim C6: `resolveString` with index 0 yields the empty string for every
trailing area, and for an index `k ≥ 1` that names a string present in a
well-formed area (NUL-free strings, each NUL-terminated, double-NUL end
marker) it yields the k-th string, 1-based, with trailing whitespace stripped
and leading whitespace preserved (the trimming acts on the raw bytes). -/
theorem c6_resolveString {data address : List Nat} {offset k : Nat}
    (ss : List (List Nat))
    (hidx : address.get? offset = some k)
    (hss : ∀ s ∈ ss, ∀ b ∈ s, b ≠ 0) :
    (k = 0 → dmiString data address offset = some "") ∧
    (1 ≤ k → k ≤ ss.length →
      dmiString (encodeStrings ss) address offset =
        some (bytesToString (trimRightBytes (ss.getD (k - 1) [])))) := by
  constructor
  · intro hk
    subst hk
    exact dmiString_index_zero hidx
  · intro h1 hk
    have hlt : k - 1 < ss.length := by omega
    have hdrop : ss.drop (k - 1) = ss.getD (k - 1) [] :: ss.drop k := by
      rw [List.getD_eq_getElem _ _ hlt]
      have := List.drop_eq_getElem_cons hlt
      rwa [show k - 1 + 1 = k by omega] at this
    have hmem : ss.getD (k - 1) [] ∈ ss := by
      rw [List.getD_eq_getElem _ _ hlt]
      exact List.getElem_mem hlt
    have hskip : skipStrings (k - 1) (encodeStrings ss)
        = some (encodeStrings (ss.drop (k - 1))) :=
      skipStrings_encode (by omega) hss
    have hread : readCStr (encodeStrings (ss.drop (k - 1)))
        = some (ss.getD (k - 1) []) := by
      rw [hdrop, encodeStrings_cons]
      exact readCStr_append _ (hss _ hmem)
    exact dmiString_eq_of hidx (by omega) hskip hread

/-- Claim C6 (witness): on the area "Bank0\0Corsair  \0\0" with index 2, the
resolver returns "Corsair" — the second string with its two trailing spaces
stripped. -/
theorem c6_witness :
    dmiString
        (encodeStrings [[66, 97, 110, 107, 48],
          [67, 111, 114, 115, 97, 105, 114, 32, 32]]) [2] 0
      = some "Corsair" := by
  exact (@c6_resolveString [2] [2] 0 2
    [[66, 97, 110, 107, 48], [67, 111, 114, 115, 97, 105, 114, 32, 32]]
    (by decide) (by decide)).2 (by decide) (by decide)

/-! ## Claims C7 and C10 — the bit-field decoder -/

/-- Plain concatenation of a list of strings. -/
def joinLabels : List String → String
  | [] => ""
  | s :: rest => s ++ joinLabels rest

theorem one_shiftLeft_and_ne_zero (mask i : Nat) :
    ((1 <<< i) &&& mask ≠ 0) ↔ Nat.testBit mask i = true := by
  rw [Nat.shiftLeft_eq, one_mul, Nat.and_comm, Nat.and_two_pow]
  cases h : Nat.testBit mask i <;> simp [(Nat.two_pow_pos i).ne']

theorem mapFind_enumFrom (labels : List String) :
    ∀ (k j : Nat), mapFind (List.enumFrom k labels) (k + j) = labels.get? j := by
  induction labels with
  | nil => intro k j; rfl
  | cons l ls ih =>
    intro k j
    cases j with
    | zero => simp [List.enumFrom_cons, mapFind, List.find?]
    | succ j =>
      rw [List.enumFrom_cons, List.get?_cons_succ]
      unfold mapFind
      rw [List.find?_cons_of_neg]
      · have hrec := ih (k + 1) j
        unfold mapFind at hrec
        rw [show k + (j + 1) = (k + 1) + j by omega]
        exact hrec
      · simp

theorem bitFieldLoop_succ (bitField : Nat) (table : List (Nat × String))
    (rem i : Nat) (acc : String) :
    bitFieldLoop bitField table (rem + 1) i acc =
      if (1 <<< i) &&& bitField ≠ 0 then
        match mapFind table i with
        | some lbl => bitFieldLoop bitField table rem (i + 1) (acc ++ lbl ++ " ")
        | none => none
      else bitFieldLoop bitField table rem (i + 1) acc := rfl

theorem mapFind_enum (labels : List String) (i : Nat) :
    mapFind labels.enum i = labels.get? i := by
  have h := mapFind_enumFrom labels 0 i
  simpa [List.enum] using h

theorem bitFieldLoop_spec (mask : Nat) (labels : List String) :
    ∀ (rem i : Nat) (acc : String), i + rem = labels.length →
      bitFieldLoop mask labels.enum rem i acc =
        some (acc ++ joinLabels (((List.enumFrom i (labels.drop i)).filter
          (fun q => Nat.testBit mask q.1)).map (fun q => q.2 ++ " "))) := by
  intro rem
  induction rem with
  | zero =>
    intro i acc h
    rw [List.drop_eq_nil_of_le (by omega)]
    simp [bitFieldLoop, List.enumFrom, joinLabels]
  | succ rem ih =>
    intro i acc h
    have hi : i < labels.length := by omega
    have hfind : mapFind labels.enum i = some labels[i] := by
      rw [mapFind_enum, List.get?_eq_getElem?]
      exact List.getElem?_eq_getElem hi
    rw [List.drop_eq_getElem_cons hi, List.enumFrom_cons]
    by_cases hb : Nat.testBit mask i
    · have hcond : (1 <<< i) &&& mask ≠ 0 :=
        (one_shiftLeft_and_ne_zero mask i).mpr hb
      rw [bitFieldLoop_succ, if_pos hcond, hfind]
      show bitFieldLoop mask labels.enum rem (i + 1)
        (acc ++ labels[i] ++ " ") = _
      rw [ih (i + 1) (acc ++ labels[i] ++ " ") (by omega)]
      rw [List.filter_cons_of_pos (by simpa using hb)]
      simp only [List.map_cons, joinLabels]
      simp [String.append_assoc]
    · have hcond : ¬((1 <<< i) &&& mask ≠ 0) := by
        rw [one_shiftLeft_and_ne_zero]
        simpa using hb
      rw [bitFieldLoop_succ, if_neg hcond]
      rw [ih (i + 1) acc (by omega)]
      rw [List.filter_cons_of_neg (by simpa using hb)]

theorem strEmptyAppend (s : String) : "" ++ s = s := by
  apply String.ext
  rw [String.data_append]
  rfl

theorem strPopBack_append_space (s : String) : strPopBack (s ++ " ") = s := by
  apply String.ext
  show (s ++ " ").data.dropLast = s.data
  rw [String.data_append]
  exact List.dropLast_concat

theorem append_space_ne_empty (s : String) : s ++ " " ≠ "" := by
  intro hcon
  have h2 := congrArg String.data hcon
  rw [String.data_append] at h2
  simp at h2

theorem joinLabels_cons_space (s : String) (rest : List String) :
    joinLabels ((s :: rest).map (fun x => x ++ " "))
      = joinSpace (s :: rest) ++ " " := by
  induction rest generalizing s with
  | nil => simp [joinLabels, joinSpace, String.append_empty]
  | cons s2 rest ih =>
    rw [show joinLabels ((s :: s2 :: rest).map (fun x => x ++ " "))
        = (s ++ " ") ++ joinLabels ((s2 :: rest).map (fun x => x ++ " "))
      from rfl]
    rw [ih]
    rw [show joinSpace (s :: s2 :: rest) = s ++ " " ++ joinSpace (s2 :: rest)
      from rfl]
    simp [String.append_assoc]

theorem popBack_guard_join (l : List String) :
    (if joinLabels (l.map (fun x => x ++ " ")) = "" then
       joinLabels (l.map (fun x => x ++ " "))
     else strPopBack (joinLabels (l.map (fun x => x ++ " "))))
      = joinSpace l := by
  cases l with
  | nil => simp [joinLabels, joinSpace]
  | cons s rest =>
    rw [joinLabels_cons_space, if_neg (append_space_ne_empty _)]
    exact strPopBack_append_space _

theorem dmiBitFieldToStr_enum (mask : Nat) (labels : List String) :
    dmiBitFieldToStr mask labels.enum
      = some (specDecodeBits mask labels.enum) := by
  unfold dmiBitFieldToStr
  rw [List.enum_length,
    bitFieldLoop_spec mask labels labels.length 0 "" (by omega)]
  simp only [Option.map_some', List.drop_zero]
  rw [show List.enumFrom 0 labels = labels.enum from rfl]
  rw [strEmptyAppend]
  rw [show List.map (fun q => (q.2 : String) ++ " ")
        (labels.enum.filter (fun q => Nat.testBit mask q.1))
      = List.map (fun x => x ++ " ")
        (List.map (fun q => q.2)
          (labels.enum.filter (fun q => Nat.testBit mask q.1)))
    by simp [List.map_map, Function.comp]]
  simp only [specDecodeBits]
  exact congrArg some (popBack_guard_join _)

/-- Claim C7 (amended): for label tables whose keys are exactly
0 .. size-1 (as every shipped table is), the decoder returns exactly the
labels of the set bits below the table's size, in ascending bit-index order,
single-space separated with no leading or trailing separator; mask 0, or a
mask none of whose set bits lies below the table's size, yields the empty
string.  (For tables with other key sets the original claim fails, see the
counterexample.) -/
theorem c7_amended (mask : Nat) (labels : List String) :
    dmiBitFieldToStr mask labels.enum
        = some (specDecodeBits mask labels.enum) ∧
    dmiBitFieldToStr 0 labels.enum = some "" ∧
    ((∀ j, j < labels.length → Nat.testBit mask j = false) →
      dmiBitFieldToStr mask labels.enum = some "") := by
  refine ⟨dmiBitFieldToStr_enum mask labels, ?_, ?_⟩
  · rw [dmiBitFieldToStr_enum 0 labels]
    simp [specDecodeBits, Nat.zero_testBit, joinSpace]
  · intro hout
    rw [dmiBitFieldToStr_enum mask labels]
    have hnil : labels.enum.filter (fun q => Nat.testBit mask q.1) = [] := by
      apply List.filter_eq_nil_iff.mpr
      intro q hq
      obtain ⟨i, x⟩ := q
      obtain ⟨-, hlt, -⟩ := List.mem_enumFrom hq
      simp only []
      rw [hout i (by simpa using hlt)]
      simp
    rw [specDecodeBits, hnil]
    rfl

def detailsLabels : List String :=
  ["Reserved", "Other", "Unknown", "Fast-paged", "Static column",
   "Pseudo-static", "RAMBUS", "Synchronous", "CMOS", "EDO", "Window DRAM",
   "Cache DRAM", "Non-volatile", "Registered (Buffered)",
   "Unbuffered (Unregistered)", "LRDIMM"]

theorem detailsTable_eq_enum :
    kSMBIOSMemoryDetailsTable = detailsLabels.enum := by decide

/-- Claim C10: the memory-detail table's keys are exactly 0 through 15, so
decoding any mask over it is total and never hits a missing key, and bits at
positions 16 and above are ignored. -/
theorem c10_details_total :
    kSMBIOSMemoryDetailsTable.map (fun p => p.1) = List.range 16 ∧
    (∀ mask : Nat,
      (dmiBitFieldToStr mask kSMBIOSMemoryDetailsTable).isSome = true) ∧
    (∀ mask : Nat, dmiBitFieldToStr mask kSMBIOSMemoryDetailsTable
      = dmiBitFieldToStr (mask % 2 ^ 16) kSMBIOSMemoryDetailsTable) := by
  refine ⟨by decide, ?_, ?_⟩
  · intro mask
    rw [detailsTable_eq_enum, dmiBitFieldToStr_enum]
    rfl
  · intro mask
    rw [detailsTable_eq_enum, dmiBitFieldToStr_enum, dmiBitFieldToStr_enum]
    have hfil : detailsLabels.enum.filter (fun q => Nat.testBit mask q.1)
        = detailsLabels.enum.filter
            (fun q => Nat.testBit (mask % 2 ^ 16) q.1) := by
      apply List.filter_congr
      intro q hq
      obtain ⟨i, x⟩ := q
      obtain ⟨-, hlt, -⟩ := List.mem_enumFrom hq
      simp only []
      rw [Nat.testBit_mod_two_pow]
      have hi16 : i < 16 := by simpa [detailsLabels] using hlt
      simp [hi16]
    rw [specDecodeBits, specDecodeBits, hfil]

/-- Claim C7 (witness): the amended claim at mask 9 over a four-label table:
bits 0 and 3 are set, so the result is the first and fourth labels joined by
one space. -/
theorem c7_witness :
    dmiBitFieldToStr 9 (List.enum ["a", "b", "c", "d"])
        = some (specDecodeBits 9 (List.enum ["a", "b", "c", "d"])) ∧
    dmiBitFieldToStr 0 (List.enum ["a", "b", "c", "d"]) = some "" ∧
    specDecodeBits 9 (List.enum ["a", "b", "c", "d"]) = "a d" :=
  ⟨(c7_amended 9 ["a", "b", "c", "d"]).1,
   (c7_amended 9 ["a", "b", "c", "d"]).2.1, by decide⟩

/-! ## Claims C2, C8, C9 — the structure walker -/

theorem scanNulGo_ge (buf : List Nat) :
    ∀ (fuel p : Nat), p ≤ scanNulGo buf fuel p := by
  intro fuel
  induction fuel with
  | zero => intro p; simp [scanNulGo]
  | succ fuel ih =>
    intro p
    simp only [scanNulGo]
    split
    · split
      · omega
      · have := ih (p + 1)
        omega
    · omega

theorem scanNulGo_le (buf : List Nat) :
    ∀ (fuel p : Nat), p ≤ buf.length → scanNulGo buf fuel p ≤ buf.length := by
  intro fuel
  induction fuel with
  | zero => intro p h; simpa [scanNulGo] using h
  | succ fuel ih =>
    intro p h
    simp only [scanNulGo]
    split
    · split
      · omega
      · exact ih (p + 1) (by omega)
    · exact h

theorem scanNulGo_gt (buf : List Nat) (fuel p : Nat)
    (h4 : p + 4 ≤ buf.length) : p < scanNulGo buf (fuel + 1) p := by
  simp only [scanNulGo]
  rw [if_pos h4]
  split
  · omega
  · have := scanNulGo_ge buf fuel (p + 1)
    omega

theorem scanNul_ge (buf : List Nat) (p : Nat) : p ≤ scanNul buf p :=
  scanNulGo_ge buf (buf.length + 1) p

theorem scanNul_le (buf : List Nat) (p : Nat) (h : p ≤ buf.length) :
    scanNul buf p ≤ buf.length :=
  scanNulGo_le buf (buf.length + 1) p h

theorem scanNul_gt (buf : List Nat) (p : Nat) (h4 : p + 4 ≤ buf.length) :
    p < scanNul buf p :=
  scanNulGo_gt buf buf.length p h4

theorem scanNulGo_no_pair (buf : List Nat) (p0 : Nat)
    (hnp : ∀ q, p0 ≤ q → q + 4 ≤ buf.length →
      ¬(buf.getD q 0 = 0 ∧ buf.getD (q + 1) 0 = 0)) :
    ∀ (fuel p : Nat), p0 ≤ p → buf.length + 1 ≤ fuel + p →
      buf.length < scanNulGo buf fuel p + 4 := by
  intro fuel
  induction fuel with
  | zero =>
    intro p hp hf
    simp only [scanNulGo]
    omega
  | succ fuel ih =>
    intro p hp hf
    simp only [scanNulGo]
    split_ifs with h4 hpair
    · exact absurd hpair (hnp p hp h4)
    · exact ih (p + 1) (by omega) (by omega)
    · omega

theorem tablesGo_succ (buf : List Nat) (fuel c index : Nat) :
    tablesGo buf (fuel + 1) c index =
      if c + 4 ≤ buf.length then
        if c + (parseHeader buf c).length > buf.length then []
        else if (parseHeader buf c).length = 0 ∧
            (parseHeader buf c).handle = 0 then []
        else
          (index, parseHeader buf c, c,
              scanNul buf (c + (parseHeader buf c).length) - c) ::
            tablesGo buf fuel
              (scanNul buf (c + (parseHeader buf c).length)) (index + 1)
      else [] := rfl

theorem tablesGo_nil_of_short (buf : List Nat) (fuel c index : Nat)
    (h : buf.length < c + 4) : tablesGo buf fuel c index = [] := by
  cases fuel with
  | zero => rfl
  | succ fuel => rw [tablesGo_succ, if_neg (by omega)]

theorem tablesGo_mem (buf : List Nat) :
    ∀ (fuel c index : Nat) (t : SMBTuple), t ∈ tablesGo buf fuel c index →
      c ≤ t.2.2.1 ∧ t.2.2.1 + 4 ≤ buf.length ∧
      t.2.2.1 + t.2.1.length ≤ buf.length ∧
      t.2.2.1 + t.2.2.2 ≤ buf.length ∧
      ¬(t.2.1.length = 0 ∧ t.2.1.handle = 0) ∧
      t.2.1 = parseHeader buf t.2.2.1 := by
  intro fuel
  induction fuel with
  | zero =>
    intro c index t ht
    simp [tablesGo] at ht
  | succ fuel ih =>
    intro c index t ht
    rw [tablesGo_succ] at ht
    split_ifs at ht with h4 hlen hend
    · simp at ht
    · simp at ht
    · rcases List.mem_cons.mp ht with rfl | htail
      · have hge : c + (parseHeader buf c).length
            ≤ scanNul buf (c + (parseHeader buf c).length) :=
          scanNul_ge buf _
        have hle : scanNul buf (c + (parseHeader buf c).length)
            ≤ buf.length := scanNul_le buf _ (by omega)
        dsimp only
        refine ⟨le_refl _, h4, by omega, by omega, hend, rfl⟩
      · have hmem := ih (scanNul buf (c + (parseHeader buf c).length))
          (index + 1) t htail
        have hge : c + (parseHeader buf c).length
            ≤ scanNul buf (c + (parseHeader buf c).length) :=
          scanNul_ge buf _
        exact ⟨by omega, hmem.2.1, hmem.2.2.1, hmem.2.2.2.1,
          hmem.2.2.2.2.1, hmem.2.2.2.2.2⟩
    · simp at ht

theorem tablesGo_map_fst (buf : List Nat) :
    ∀ (fuel c index : Nat),
      (tablesGo buf fuel c index).map (fun t => t.1)
        = List.range' index (tablesGo buf fuel c index).length := by
  intro fuel
  induction fuel with
  | zero => intro c index; simp [tablesGo]
  | succ fuel ih =>
    intro c index
    rw [tablesGo_succ]
    split_ifs with h4 hlen hend
    · simp
    · simp
    · simp only [List.map_cons, List.length_cons, List.range'_succ]
      congr 1
      exact ih _ (index + 1)
    · simp

theorem tablesGo_chain (buf : List Nat) :
    ∀ (fuel c index : Nat),
      List.Chain' (fun a b => a < b)
        ((tablesGo buf fuel c index).map (fun t => t.2.2.1)) := by
  intro fuel
  induction fuel with
  | zero => intro c index; simp [tablesGo]
  | succ fuel ih =>
    intro c index
    rw [tablesGo_succ]
    split_ifs with h4 hlen hend
    · simp
    · simp
    · rw [List.map_cons]
      refine List.chain'_cons'.mpr ⟨?_, ih _ (index + 1)⟩
      intro b hb
      have hcn : c < scanNul buf (c + (parseHeader buf c).length) := by
        rcases Nat.eq_zero_or_pos (parseHeader buf c).length with hz | hpos
        · rw [hz, Nat.add_zero]
          exact scanNul_gt buf c h4
        · have := scanNul_ge buf (c + (parseHeader buf c).length)
          omega
      cases htail : tablesGo buf fuel
          (scanNul buf (c + (parseHeader buf c).length)) (index + 1) with
      | nil => rw [htail] at hb; simp at hb
      | cons t ts =>
        rw [htail] at hb
        simp only [List.map_cons, List.head?_cons, Option.mem_def,
          Option.some.injEq] at hb
        subst hb
        have hmem := tablesGo_mem buf fuel
          (scanNul buf (c + (parseHeader buf c).length)) (index + 1) t
          (htail ▸ List.mem_cons_self t ts)
        dsimp only
        omega
    · simp

/-- Claim C2 (amended): when a structure's formatted area fits in the buffer,
the structure is not the (length 0, handle 0) end marker, and no pair of
consecutive NUL bytes is found at any scan position from which at least 4
bytes remain, the walker still emits that trailing structure — with its span
ending where the scan stopped — as the final tuple, and then stops.  (The
original claim said the structure is not emitted; the counterexample refutes
that.) -/
theorem c2_amended (buf : List Nat) (fuel c index : Nat)
    (h4 : c + 4 ≤ buf.length)
    (hfit : c + (parseHeader buf c).length ≤ buf.length)
    (hend : ¬((parseHeader buf c).length = 0 ∧ (parseHeader buf c).handle = 0))
    (hnp : ∀ q, c + (parseHeader buf c).length ≤ q → q + 4 ≤ buf.length →
      ¬(buf.getD q 0 = 0 ∧ buf.getD (q + 1) 0 = 0)) :
    tablesGo buf (fuel + 1) c index =
      [(index, parseHeader buf c, c,
        scanNul buf (c + (parseHeader buf c).length) - c)] := by
  rw [tablesGo_succ, if_pos h4, if_neg (by omega), if_neg hend]
  have hstop : buf.length
      < scanNul buf (c + (parseHeader buf c).length) + 4 :=
    scanNulGo_no_pair buf (c + (parseHeader buf c).length) hnp
      (buf.length + 1) (c + (parseHeader buf c).length) (le_refl _) (by omega)
  rw [tablesGo_nil_of_short buf fuel _ (index + 1) hstop]

/-- Decidable form of the premise of claim C2: there is no pair of
consecutive NUL bytes at any scan position at or after `lo` from which at
least 4 bytes remain. -/
def noNulPair (buf : List Nat) (lo : Nat) : Bool :=
  ((List.range buf.length).filter
      (fun q => lo ≤ q && q + 4 ≤ buf.length)).all
    (fun q => !(buf.getD q 0 == 0 && buf.getD (q + 1) 0 == 0))

/-- Claim C2 (counterexample): in the buffer `[17,4,0,0,1,1,1,1]` the single
structure's 4-byte formatted area fits and no consecutive NUL pair follows
it, yet the walker emits one tuple for the structure instead of none. -/
theorem c2_counterexample :
    noNulPair [17, 4, 0, 0, 1, 1, 1, 1] 4 = true ∧
    tables [17, 4, 0, 0, 1, 1, 1, 1] = [(0, ⟨17, 4, 0⟩, 0, 5)] := by
  constructor
  · decide
  · decide

/-- Claim C2 (witness): the amended claim evaluated on the counterexample
buffer — exactly one tuple, spanning bytes 0 through 4. -/
theorem c2_witness :
    tables [17, 4, 0, 0, 1, 1, 1, 1] = [(0, ⟨17, 4, 0⟩, 0, 5)] := by
  have h := c2_amended [17, 4, 0, 0, 1, 1, 1, 1] 8 0 0 (by decide) (by decide)
    (by decide) ?_
  · rw [show tables [17, 4, 0, 0, 1, 1, 1, 1]
        = tablesGo [17, 4, 0, 0, 1, 1, 1, 1] (8 + 1) 0 0 from rfl, h]
    decide
  · intro q hq1 hq2
    have e1 : (0 : Nat)
        + (parseHeader [17, 4, 0, 0, 1, 1, 1, 1] 0).length = 4 := by decide
    have e2 : ([17, 4, 0, 0, 1, 1, 1, 1] : List Nat).length = 8 := by decide
    rw [e1] at hq1
    rw [e2] at hq2
    have hq : q = 4 := by omega
    subst hq
    decide

/-- Claim C8 (amended): every structure the walker emits has its declared
formatted area inside the buffer and is not the (length 0, handle 0) end
marker; but `header.length ≥ 4` is NOT validated — a structure declaring a
length below 4 is still emitted (see the counterexample). -/
theorem c8_amended (buf : List Nat) (t : SMBTuple) (ht : t ∈ tables buf) :
    t.2.2.1 + t.2.1.length ≤ buf.length ∧
    ¬(t.2.1.length = 0 ∧ t.2.1.handle = 0) :=
  ⟨(tablesGo_mem buf (buf.length + 1) 0 0 t ht).2.2.1,
   (tablesGo_mem buf (buf.length + 1) 0 0 t ht).2.2.2.2.1⟩

/-- Claim C8 (counterexample): a structure declaring header length 2 (below
the 4-byte header size) is emitted by the walker rather than truncated. -/
theorem c8_counterexample :
    tables [17, 2, 1, 0, 0, 0, 0, 0] = [(0, ⟨17, 2, 1⟩, 0, 5)] ∧
    (2 : Nat) < 4 := by
  constructor
  · decide
  · decide

/-- Claim C8 (witness): the amended claim at the one tuple the walker emits
over a 6-byte buffer. -/
theorem c8_witness :
    ((0, (⟨17, 4, 0⟩ : SMBStructHeader), 0, 4) : SMBTuple).2.2.1
        + ((0, (⟨17, 4, 0⟩ : SMBStructHeader), 0, 4) : SMBTuple).2.1.length
        ≤ ([17, 4, 0, 0, 0, 0] : List Nat).length ∧
    ¬(((0, (⟨17, 4, 0⟩ : SMBStructHeader), 0, 4) : SMBTuple).2.1.length = 0 ∧
      ((0, (⟨17, 4, 0⟩ : SMBStructHeader), 0, 4) : SMBTuple).2.1.handle = 0) :=
  c8_amended [17, 4, 0, 0, 0, 0] (0, ⟨17, 4, 0⟩, 0, 4) (by decide)

/-- Claim C9: for every buffer the walker's emitted tuples carry consecutive
indices starting at 0, strictly ascending structure start offsets, and spans
that lie entirely within the buffer; the sequence is a finite list produced
in one pass. -/
theorem c9_walker_invariants (buf : List Nat) :
    (tables buf).map (fun t => t.1) = List.range (tables buf).length ∧
    List.Chain' (fun a b => a < b)
      ((tables buf).map (fun t => t.2.2.1)) ∧
    (∀ t ∈ tables buf, t.2.2.1 + t.2.2.2 ≤ buf.length) := by
  refine ⟨?_, ?_, ?_⟩
  · rw [List.range_eq_range']
    exact tablesGo_map_fst buf (buf.length + 1) 0 0
  · exact tablesGo_chain buf (buf.length + 1) 0 0
  · intro t ht
    exact (tablesGo_mem buf (buf.length + 1) 0 0 t ht).2.2.2.1

/-- Claim C9 (witness): the invariants at a two-structure buffer, the
span-containment conjunct instantiated at the first emitted tuple. -/
theorem c9_witness :
    (tables [17, 4, 0, 1, 0, 0, 16, 4, 0, 1, 0, 0]).map (fun t => t.1)
        = List.range (tables [17, 4, 0, 1, 0, 0, 16, 4, 0, 1, 0, 0]).length ∧
    List.Chain' (fun a b => a < b)
      ((tables [17, 4, 0, 1, 0, 0, 16, 4, 0, 1, 0, 0]).map
        (fun t => t.2.2.1)) ∧
    ((0, (⟨17, 4, 256⟩ : SMBStructHeader), 0, 6) : SMBTuple).2.2.1
        + ((0, (⟨17, 4, 256⟩ : SMBStructHeader), 0, 6) : SMBTuple).2.2.2
        ≤ ([17, 4, 0, 1, 0, 0, 16, 4, 0, 1, 0, 0] : List Nat).length :=
  ⟨(c9_walker_invariants [17, 4, 0, 1, 0, 0, 16, 4, 0, 1, 0, 0]).1,
   (c9_walker_invariants [17, 4, 0, 1, 0, 0, 16, 4, 0, 1, 0, 0]).2.1,
   (c9_walker_invariants [17, 4, 0, 1, 0, 0, 16, 4, 0, 1, 0, 0]).2.2
     (0, ⟨17, 4, 256⟩, 0, 6) (by decide)⟩
